import Mathlib

/-!
Shallow embedding of the `unzrip` ZIP extractor (Rust) and its `zip-parser`
crate, together with theorems settling the specification claims.

Bytes of the memory-mapped archive are modelled as `List Nat` (each element a
byte value).  Machine integers are modelled as `Nat`; masks with explicit
constants are written out where the source uses fixed-width operations.
Fallible Rust code returning `Result<_, Error>` is modelled with the `PResult`
outcome type below, which in addition to success and the parser's error
enumeration can record a runtime panic (Rust slice-index panic) and
non-termination (an infinite loop), both of which the source can exhibit.
-/

/-- Byte buffer: models `memutils::Buf<'_> = &[ReadOnlyCell<u8>]`. -/
abbrev Buf := List Nat

/-- Models `zip_parser::Error` (src/zip-parser/src/lib.rs). -/
inductive ZError where
  | eof
  | badEocdr
  | badCfh
  | badLfh
  | unsupported
  | offsetOverflow
deriving DecidableEq, Repr

/-- Outcome of running a piece of the Rust source: a value, a returned
`Error`, a runtime panic, or non-termination. -/
inductive PResult (α : Type) where
  | ok (a : α)
  | err (e : ZError)
  | panicked
  | diverges
deriving DecidableEq, Repr

def PResult.bind {α β : Type} : PResult α → (α → PResult β) → PResult β
  | .ok a, f => f a
  | .err e, _ => .err e
  | .panicked, _ => .panicked
  | .diverges, _ => .diverges

instance : Monad PResult where
  pure := PResult.ok
  bind := PResult.bind

def PResult.map {α β : Type} (f : α → β) : PResult α → PResult β
  | .ok a => .ok (f a)
  | .err e => .err e
  | .panicked => .panicked
  | .diverges => .diverges

/-- Models `zip_parser::util::take`: `Ok((suffix, prefix))` when the input
holds at least `n` bytes, `Err(Eof)` otherwise.  The source checks
`input.len() >= n` and calls `split_at`; here the bounds check and the split
are fused into one structural recursion with the same result. -/
def take : Buf → Nat → PResult (Buf × Buf)
  | input, 0 => .ok (input, [])
  | [], _ + 1 => .err .eof
  | b :: rest, n + 1 =>
    match take rest n with
    | .ok (suffix, pre) => .ok (suffix, b :: pre)
    | .err e => .err e
    | .panicked => .panicked
    | .diverges => .diverges

/-- Little-endian value of a byte list (`uXX::from_le_bytes`). -/
def leValue : Buf → Nat
  | [] => 0
  | b :: rest => b + 256 * leValue rest

/-- Models `zip_parser::util::read_u16`. -/
def read_u16 (input : Buf) : PResult (Buf × Nat) :=
  (take input 2).map fun p => (p.1, leValue p.2)

/-- Models `zip_parser::util::read_u32`. -/
def read_u32 (input : Buf) : PResult (Buf × Nat) :=
  (take input 4).map fun p => (p.1, leValue p.2)

/-- Models `zip_parser::util::read_u64`. -/
def read_u64 (input : Buf) : PResult (Buf × Nat) :=
  (take input 8).map fun p => (p.1, leValue p.2)

/-- Tail-recursive byte-count with an eagerly forced accumulator (the
accumulator is pattern-matched so that kernel evaluation of long buffers
stays iterative).  `bufLen_eq` below shows it computes `List.length`, which
is what `.len()` means in the source. -/
def bufLenGo : Buf → Nat → Nat
  | [], acc => acc
  | _ :: rest, 0 => bufLenGo rest 1
  | _ :: rest, acc + 1 => bufLenGo rest (acc + 2)

/-- Models `.len()` on a buffer. -/
def bufLen (l : Buf) : Nat := bufLenGo l 0

/-- Models `zip_parser::util::rfind`: index of the last occurrence of
`needle` in `haystack` (`None` for an empty needle, as the source returns
`None` when `needle.first()` is `None`). -/
def rfind (haystack needle : Buf) : Option Nat :=
  if needle.isEmpty then none
  else (List.range (bufLen haystack)).reverse.find?
    fun i => needle.isPrefixOf (haystack.drop i)

/-- Models `usize::try_from` on a 64-bit host (`value.try_into()` in the
source, failing with `OffsetOverflow` when the value exceeds the address
width). -/
def usizeOf (n : Nat) : PResult Nat :=
  if n < 2 ^ 64 then .ok n else .err .offsetOverflow

/-- Models `EocdRecord32` (the 32-bit end-of-central-directory record). -/
structure EocdRecord32 where
  sig : Nat
  disk_nbr : Nat
  cd_start_disk : Nat
  disk_cd_entries : Nat
  cd_entries : Nat
  cd_size : Nat
  cd_offset : Nat
  comment : Buf
deriving DecidableEq, Repr

/-- The EOCDR signature bytes `PK\x05\x06`. -/
def eocdrSigBytes : Buf := [80, 75, 5, 6]

/-- The ZIP64 EOCDR signature bytes `PK\x06\x06`. -/
def eocdr64SigBytes : Buf := [80, 75, 6, 6]

/-- The ZIP64 locator signature bytes `PK\x06\x07`. -/
def locatorSigBytes : Buf := [80, 75, 6, 7]

/-- The central-file-header signature bytes `PK\x01\x02`. -/
def cfhSigBytes : Buf := [80, 75, 1, 2]

/-- Models `EocdRecord32::find`: scan the last `min(len, 128 KiB)` bytes
backwards for the EOCDR signature, then parse the record.  Returns the
record and its absolute offset in `buf`. -/
def EocdRecord32.find (buf : Buf) : PResult (EocdRecord32 × Nat) := do
  -- max_back_buf = last min(len, MAX_BACK_OFFSET) bytes
  let maxBackBuf :=
    if bufLen buf ≥ 1024 * 128 then buf.drop (bufLen buf - 1024 * 128) else buf
  match rfind maxBackBuf eocdrSigBytes with
  | none => .err .badEocdr
  | some i => do
    let eocdrBuf := maxBackBuf.drop i
    let (input, sig) ← read_u32 eocdrBuf
    let (input, disk_nbr) ← read_u16 input
    let (input, cd_start_disk) ← read_u16 input
    let (input, disk_cd_entries) ← read_u16 input
    let (input, cd_entries) ← read_u16 input
    let (input, cd_size) ← read_u32 input
    let (input, cd_offset) ← read_u32 input
    let (input, comment_len) ← read_u16 input
    let (_input, comment) ← take input comment_len
    .ok (⟨sig, disk_nbr, cd_start_disk, disk_cd_entries, cd_entries,
          cd_size, cd_offset, comment⟩,
         bufLen buf - bufLen eocdrBuf)

/-- Models `EocdRecord64` (the ZIP64 end-of-central-directory record). -/
structure EocdRecord64 where
  sig : Nat
  size : Nat
  made_by_ver : Nat
  extract_ver : Nat
  disk_nbr : Nat
  cd_start_disk : Nat
  disk_cd_entries : Nat
  cd_entries : Nat
  cd_size : Nat
  cd_offset : Nat
  ext_data_sector : Buf
deriving DecidableEq, Repr

/-- Models `buf.get(offset..).filter(|buf| &buf[..sig.len()] == sig)`
followed by `.ok_or(Error::BadEocdr)`.  `get` returns `Some` exactly when
`offset <= buf.len()`; the closure then indexes `&buf[..sig.len()]`, which
PANICS when fewer than `sig.len()` bytes remain — that panic is modelled
explicitly. -/
def getFilterSig (buf : Buf) (offset : Nat) (sig : Buf) : PResult Buf :=
  if offset ≤ bufLen buf then
    let s := buf.drop offset
    if bufLen s < bufLen sig then .panicked
    else if s.take (bufLen sig) = sig then .ok s
    else .err .badEocdr
  else .err .badEocdr

/-- Models `EocdRecord64::find`: step back the fixed locator size from the
EOCDR offset, check the locator signature, follow the locator's absolute
offset (attacker controlled), check the ZIP64 EOCDR signature there, and
parse the record clipped to its declared size. -/
def EocdRecord64.find (buf : Buf) (eocdr_offset : Nat) : PResult EocdRecord64 := do
  -- LOCATOR_LEN = 4 + 4 + 8 + 4 = 20; checked_sub else OffsetOverflow
  if eocdr_offset < 20 then .err .offsetOverflow
  else do
    let locatorBuf ← getFilterSig buf (eocdr_offset - 20) locatorSigBytes
    let (input, _sig) ← read_u32 locatorBuf
    let (input, _start_disk_nbr) ← read_u32 input
    let (input, locOffset64) ← read_u64 input
    let (_input, _total_disk_nbr) ← read_u32 input
    let offset ← usizeOf locOffset64
    let eocdrBuf ← getFilterSig buf offset eocdr64SigBytes
    let (input, sig) ← read_u32 eocdrBuf
    let (input, size64) ← read_u64 input
    let size ← usizeOf size64
    -- input.get(..size).ok_or(Error::BadEocdr)
    if size ≤ bufLen input then do
      let input := input.take size
      let (input, made_by_ver) ← read_u16 input
      let (input, extract_ver) ← read_u16 input
      let (input, disk_nbr) ← read_u32 input
      let (input, cd_start_disk) ← read_u32 input
      let (input, disk_cd_entries) ← read_u64 input
      let (input, cd_entries) ← read_u64 input
      let (input, cd_size) ← read_u64 input
      let (input, cd_offset) ← read_u64 input
      .ok ⟨sig, size, made_by_ver, extract_ver, disk_nbr, cd_start_disk,
           disk_cd_entries, cd_entries, cd_size, cd_offset, input⟩
    else .err .badEocdr

/-- Models `ExtensibleDataField` (an id/data pair inside the extra field). -/
structure ExtensibleDataField where
  id : Nat
  data : Buf
deriving DecidableEq, Repr

/-- Models `ExtensibleDataField::read`. -/
def ExtensibleDataField.read (input : Buf) :
    PResult (Buf × ExtensibleDataField) := do
  let (input, id) ← read_u16 input
  let (input, len) ← read_u16 input
  let (input, data) ← take input len
  .ok (input, ⟨id, data⟩)

/-- One step of the `zip64_extbuf` loop in `CentralFileHeader::parse`.  The
source keeps a cursor `input` that starts at `extra` and is advanced after
each field, but the call inside the loop is `ExtensibleDataField::read(extra)`
— it always re-reads the FIRST field of `extra`, never the cursor. -/
inductive Zip64Step where
  | done (r : PResult (Option Buf))
  | again (i : Buf)
deriving DecidableEq, Repr

def zip64Step (extra input : Buf) : Zip64Step :=
  if input.isEmpty then .done (.ok none)
  else
    match ExtensibleDataField.read extra with
    | .err e => .done (.err e)
    | .panicked => .done .panicked
    | .diverges => .done .diverges
    | .ok (rest, field) =>
      if field.id = 1 then .done (.ok (some field.data)) else .again rest

/-- Fueled run of the `zip64_extbuf` loop. -/
def zip64LoopRun (extra : Buf) : Nat → Buf → PResult (Option Buf)
  | 0, _ => .diverges
  | n + 1, input =>
    match zip64Step extra input with
    | .done r => r
    | .again i => zip64LoopRun extra n i

/-- The `zip64_extbuf` loop of `CentralFileHeader::parse`.  Three steps of
fuel are exhaustive: a run either finishes within two steps (empty input;
first field has id 0x0001; first field consumes all of `extra`) or reaches a
state `i` with `zip64Step extra i = .again i`, from which it never finishes
(`zip64LoopRun_selfloop` below); the fuel value only labels that case
`.diverges`. -/
def zip64Loop (extra : Buf) : PResult (Option Buf) :=
  zip64LoopRun extra 3 extra

/-- Models one `checkext!` use inside `CentralFileHeader::parse`: when the
32-bit value is the sentinel `0xFFFFFFFF`, the archive is ZIP64 and a ZIP64
extended-information buffer is at hand, read the next 64-bit value from it;
otherwise widen the 32-bit value. -/
def checkext (is_zip64 : Bool) (st : Option Buf) (v : Nat) :
    PResult (Option Buf × Nat) :=
  match st, v with
  | some input, 0xFFFFFFFF =>
    if is_zip64 then
      (read_u64 input).map fun p => (some p.1, p.2)
    else .ok (st, v)
  | _, _ => .ok (st, v)

/-- Models `CentralFileHeader` with the 64-bit logical sizes/offset. -/
structure CentralFileHeader where
  made_by_ver : Nat
  extract_ver : Nat
  gp_flag : Nat
  method : Nat
  mod_time : Nat
  mod_date : Nat
  crc32 : Nat
  comp_size : Nat
  uncomp_size : Nat
  disk_nbr_start : Nat
  int_attrs : Nat
  ext_attrs : Nat
  lfh_offset : Nat
  name : Buf
  extra : Buf
  comment : Buf
deriving DecidableEq, Repr

/-- Models `CentralFileHeader::parse`: signature check, fixed fields,
name/extra/comment spans, the `zip64_extbuf` loop over the extra field, and
the three ordered `checkext!` overrides (uncompressed size, compressed size,
local-header offset). -/
def CentralFileHeader.parse (input0 : Buf) (is_zip64 : Bool) :
    PResult (Buf × CentralFileHeader) :=
  match take input0 4 with
  | .err e => .err e
  | .panicked => .panicked
  | .diverges => .diverges
  | .ok (input, expect_sig) =>
    if expect_sig = cfhSigBytes then do
      let (input, made_by_ver) ← read_u16 input
      let (input, extract_ver) ← read_u16 input
      let (input, gp_flag) ← read_u16 input
      let (input, method) ← read_u16 input
      let (input, mod_time) ← read_u16 input
      let (input, mod_date) ← read_u16 input
      let (input, crc32) ← read_u32 input
      let (input, comp_size32) ← read_u32 input
      let (input, uncomp_size32) ← read_u32 input
      let (input, name_len) ← read_u16 input
      let (input, extra_len) ← read_u16 input
      let (input, comment_len) ← read_u16 input
      let (input, disk_nbr_start) ← read_u16 input
      let (input, int_attrs) ← read_u16 input
      let (input, ext_attrs) ← read_u32 input
      let (input, lfh_offset32) ← read_u32 input
      let (input, name) ← take input name_len
      let (input, extra) ← take input extra_len
      let (input, comment) ← take input comment_len
      let st ← zip64Loop extra
      let (st, uncomp_size) ← checkext is_zip64 st uncomp_size32
      let (st, comp_size) ← checkext is_zip64 st comp_size32
      let (_st, lfh_offset) ← checkext is_zip64 st lfh_offset32
      .ok (input, ⟨made_by_ver, extract_ver, gp_flag, method, mod_time,
        mod_date, crc32, comp_size, uncomp_size, disk_nbr_start, int_attrs,
        ext_attrs, lfh_offset, name, extra, comment⟩)
    else .err .badCfh

/-- Models `EocdRecord` (the 32-bit/ZIP64 variant held by `ZipArchive`). -/
inductive EocdRecord where
  | zip (r : EocdRecord32)
  | zip64 (r : EocdRecord64)
deriving DecidableEq, Repr

/-- Models `EocdRecord::cd_offset` (`try_into().ok()`; on a 64-bit host the
conversion fails only above the address width). -/
def EocdRecord.cd_offset : EocdRecord → Option Nat
  | .zip r => if r.cd_offset < 2 ^ 64 then some r.cd_offset else none
  | .zip64 r => if r.cd_offset < 2 ^ 64 then some r.cd_offset else none

/-- Models `EocdRecord::cd_entries`. -/
def EocdRecord.cd_entries : EocdRecord → Option Nat
  | .zip r => if r.cd_entries < 2 ^ 64 then some r.cd_entries else none
  | .zip64 r => if r.cd_entries < 2 ^ 64 then some r.cd_entries else none

/-- Models `ZipArchive` (the buffer plus the validated EOCDR). -/
structure ZipArchive where
  buf : Buf
  eocdr : EocdRecord
deriving DecidableEq, Repr

/-- Models `ZipArchive::parse`: locate and parse the 32-bit EOCDR, reject a
disk/total entry-count mismatch as `Unsupported`, and follow the ZIP64
locator when `cd_offset` is the sentinel `0xFFFFFFFF`. -/
def ZipArchive.parse (buf : Buf) : PResult ZipArchive :=
  match EocdRecord32.find buf with
  | .ok (eocdr, eocdr_offset) =>
    if eocdr.disk_cd_entries ≠ eocdr.cd_entries then .err .unsupported
    else if eocdr.cd_offset ≠ 0xFFFFFFFF then .ok ⟨buf, .zip eocdr⟩
    else (EocdRecord64.find buf eocdr_offset).map fun e => ⟨buf, .zip64 e⟩
  | .err e => .err e
  | .panicked => .panicked
  | .diverges => .diverges

/-- Models `ZipEntries` (the central-directory iterator state). -/
structure ZipEntries where
  buf : Buf
  count : Nat
  is_zip64 : Bool
deriving DecidableEq, Repr

/-- Models `ZipArchive::entries`. -/
def ZipArchive.entries (z : ZipArchive) : PResult ZipEntries := do
  match z.eocdr.cd_offset with
  | none => .err .offsetOverflow
  | some offset =>
    if offset ≤ bufLen z.buf then
      match z.eocdr.cd_entries with
      | none => .err .offsetOverflow
      | some count => .ok ⟨z.buf.drop offset, count, z.eocdr matches .zip64 _⟩
    else .err .eof

/-- Models `<ZipEntries as Iterator>::next`.  Note that on a parse failure
the source returns `Some(Err(err))` BEFORE the `self.buf`/`self.count`
assignments, so the iterator state is left unchanged. -/
def ZipEntries.next (s : ZipEntries) :
    Option (PResult CentralFileHeader × ZipEntries) :=
  match s.count with
  | 0 => none
  | n + 1 =>
    match CentralFileHeader.parse s.buf s.is_zip64 with
    | .ok (input, cfh) => some (.ok cfh, ⟨input, n, s.is_zip64⟩)
    | .err e => some (.err e, s)
    | .panicked => some (.panicked, s)
    | .diverges => some (.diverges, s)

/-- The first `n` items the iterator yields (for observing the sequence of
per-record results). -/
def ZipEntries.takeItems (s : ZipEntries) : Nat → List (PResult CentralFileHeader)
  | 0 => []
  | n + 1 =>
    match s.next with
    | none => []
    | some (r, s2) => r :: s2.takeItems n

/-- Fueled helper for the `try_fold` in `unzip` (src/src/main.rs) that pushes
every yielded record into a vector, stopping at the first per-record error.
The fuel is always instantiated with the iterator's own `count`, which
bounds the number of `Some` results the iterator can deliver on the success
path. -/
def collectGo : Nat → ZipEntries → PResult (List CentralFileHeader)
  | 0, _ => .ok []
  | fuel + 1, s =>
    match s.next with
    | none => .ok []
    | some (.ok c, s2) => (collectGo fuel s2).map fun l => c :: l
    | some (.err e, _) => .err e
    | some (.panicked, _) => .panicked
    | some (.diverges, _) => .diverges

/-- The `try_fold` materialization over a `ZipEntries` iterator. -/
def collectFrom (s : ZipEntries) : PResult (List CentralFileHeader) :=
  collectGo s.count s

/-- Models the materialization phase of `unzip` (src/src/main.rs): parse the
archive, read the declared entry count (the source computes
`len = cmp::min(len, 128)` but uses it only as `Vec::with_capacity(len)`, a
capacity hint that does not bound the fold), then collect ALL records the
iterator yields. -/
def unzipMaterialize (buf : Buf) : PResult (List CentralFileHeader) :=
  match ZipArchive.parse buf with
  | .err e => .err e
  | .panicked => .panicked
  | .diverges => .diverges
  | .ok z =>
    match z.eocdr.cd_entries with
    | none => .err .offsetOverflow
    | some _len =>
      -- let len = cmp::min(len, 128); Vec::with_capacity(len)
      match z.entries with
      | .err e => .err e
      | .panicked => .panicked
      | .diverges => .diverges
      | .ok es => collectFrom es

/-- Number of records `unzip` materializes (0 when materialization fails). -/
def unzipMaterializeCount (buf : Buf) : Nat :=
  match unzipMaterialize buf with
  | .ok l => l.length
  | _ => 0

/-- Number of successful records in a sequence of per-record results. -/
def countOks (l : List (PResult CentralFileHeader)) : Nat :=
  (l.filter fun r => r matches .ok _).length

/-- Models `std::path::Component`: a Windows path prefix (`Component::Prefix`
is called `drive` here), the root directory, `.`, `..`, or a normal
segment. -/
inductive PComponent where
  | drive (s : String)
  | rootDir
  | curDir
  | parentDir
  | normal (s : String)
deriving DecidableEq, Repr

/-- The two failure messages of `path_join` (src/src/util.rs): the
`must relative path` bail-out and the `filename over the path limit`
context error. -/
inductive PathError where
  | mustRelative
  | pathLimit
deriving DecidableEq, Repr

/-- Models the `try_fold` walk inside `path_join`.  The source's depth
counter is a `u32` whose increment could only wrap after `2^32` normal
segments — unreachable, since a ZIP entry name is at most `u16::MAX` bytes —
so the counter is modelled as `Nat`; the `checked_sub` underflow on `..` at
depth 0 is modelled exactly. -/
def checkDepth : Nat → List PComponent → Except PathError Nat
  | depth, [] => .ok depth
  | _, .rootDir :: _ => .error .mustRelative
  | _, .drive _ :: _ => .error .mustRelative
  | depth, .normal _ :: rest => checkDepth (depth + 1) rest
  | depth, .parentDir :: rest =>
    match depth with
    | 0 => .error .pathLimit
    | d + 1 => checkDepth d rest
  | depth, .curDir :: rest => checkDepth depth rest

/-- Models `path_join` (src/src/util.rs): validate the components of `path`
with the depth walk, then `base.join(path)`, which for the relative paths
that survive validation appends the components of `path` to `base`. -/
def path_join (base path : List PComponent) : Except PathError (List PComponent) :=
  match checkDepth 0 path with
  | .error e => .error e
  | .ok _ => .ok (base ++ path)

/-- Spec-side predicate: the component is a root or prefix component, making
the path absolute in the claim's sense. -/
def PComponent.isAbsolute : PComponent → Bool
  | .rootDir => true
  | .drive _ => true
  | _ => false

/-- Spec-side predicate: the path has a root or prefix component. -/
def hasAbsolute (cs : List PComponent) : Bool := cs.any PComponent.isAbsolute

/-- Spec-side walk, following the claim's words: a normal segment increments
an integer depth counter, a parent-directory segment decrements it, and the
path is bad when the counter would ever go below zero. -/
def dipsBelowZero : Int → List PComponent → Bool
  | _, [] => false
  | d, .normal _ :: rest => dipsBelowZero (d + 1) rest
  | d, .parentDir :: rest => decide (d - 1 < 0) || dipsBelowZero (d - 1) rest
  | d, _ :: rest => dipsBelowZero d rest

/-- Components of the name `"../../../../../../../../.bashrc"` (eight
parent-directory segments, then a normal segment). -/
def bashrcName : List PComponent :=
  List.replicate 8 .parentDir ++ [.normal ".bashrc"]

/-- Models `sanitize_setuid` (src/src/util.rs).  The source computes
`SETUID_AND_SETGID = 0b11 << 9` (value `0x600`) and masks the mode with its
`u32` complement `0xFFFFF9FF` — note that `0x600` is the set-gid bit
(`0o2000`, bit 10) plus the sticky bit (`0o1000`, bit 9), NOT the set-uid
bit (`0o4000`, bit 11). -/
def sanitize_setuid (mode : Nat) : Nat := mode &&& 0xFFFFF9FF

/-- The permission mode `do_file` (src/src/main.rs) applies to an extracted
unix entry: `Permissions::from_mode(cfh.ext_attrs >> 16)` passed through
`sanitize_setuid` (applied when `ext_attrs != 0` and the record's
made-by system is unix). -/
def appliedUnixMode (ext_attrs : Nat) : Nat := sanitize_setuid (ext_attrs >>> 16)

/-- One bit step of CRC-32/ISO-HDLC (reflected polynomial `0xEDB88320`),
the checksum computed by the `crc32fast` dependency. -/
def crcBit (s : Nat) : Nat :=
  if s % 2 = 1 then (s / 2) ^^^ 0xEDB88320 else s / 2

/-- One byte step: xor the byte into the state, then eight bit steps. -/
def crcByte (s b : Nat) : Nat :=
  crcBit (crcBit (crcBit (crcBit (crcBit (crcBit (crcBit (crcBit (s ^^^ b))))))))

/-- Models `crc32fast::Hasher::update`: fold the byte step over the data. -/
def crcUpdate (s : Nat) (l : Buf) : Nat := l.foldl crcByte s

/-- Models `Hasher::finalize` (the final xor). -/
def crcFinal (s : Nat) : Nat := s ^^^ 0xFFFFFFFF

/-- CRC-32 of a byte list: initial state `0xFFFFFFFF`, byte steps, final
xor. -/
def crc32 (l : Buf) : Nat := crcFinal (crcUpdate 0xFFFFFFFF l)

/-- Outcome of the `io::copy` loop over the `Crc32Checker`-wrapped reader in
`do_file`: the bytes written, or the `crc32 check failed` error carrying the
expected and computed checksums.  `outOfFuel` is an artifact of the fueled
loop below; the entry point supplies sufficient fuel and
`do_file_truncates_and_checks_crc32` proves it never escapes. -/
inductive ExtractOutcome where
  | ok (bytes : Buf)
  | crc32CheckFailed (expect got : Nat)
  | outOfFuel
deriving DecidableEq, Repr

/-- Fueled model of `io::copy` reading from `Crc32Checker`.  Each iteration
reads one chunk of up to `c + 1` bytes (the chunk size is an arbitrary
positive number; `io::copy` uses a fixed buffer but `Read::read` may return
any positive count), updates the hasher, and appends the chunk to the
output; a zero-length read (exhausted stream) triggers the finalize-and-
compare step of `Crc32Checker::read`. -/
def copyLoopF (c expect : Nat) : Nat → Nat → Buf → Buf → ExtractOutcome
  | 0, _, _, _ => .outOfFuel
  | _ + 1, s, [], out =>
    if crcFinal s = expect then .ok out
    else .crc32CheckFailed expect (crcFinal s)
  | fuel + 1, s, b :: rest, out =>
    copyLoopF c expect fuel (crcUpdate s ((b :: rest).take (c + 1)))
      ((b :: rest).drop (c + 1)) (out ++ (b :: rest).take (c + 1))

/-- The `io::copy` run over a `Crc32Checker::new(src, expect)` reader with
chunk size `c + 1`. -/
def ioCopyCrc (c expect : Nat) (src : Buf) : ExtractOutcome :=
  copyLoopF c expect (src.length + 1) 0xFFFFFFFF src []

/-- Models the extraction pipeline of `do_file` (src/src/main.rs) after
decoder selection: `reader.take(cfh.uncomp_size)` caps the decoded stream at
`uncomp_size` bytes, `Crc32Checker::new(reader, cfh.crc32)` checks the
stream's checksum at end of stream, and `io::copy` drains it.  `decoded` is
the byte stream the selected decoder would emit (the codecs themselves are
external collaborators). -/
def doFilePipeline (decoded : Buf) (uncomp_size crc_expect c : Nat) :
    ExtractOutcome :=
  ioCopyCrc c crc_expect (decoded.take uncomp_size)

/-- Models the archive loop of `main` (src/src/main.rs):
`for file in options.file.iter() { unzip(...)?; }`.  Per-archive outcomes
are abstracted as inputs; the function returns which archive arguments were
attempted (the loop body ran) and the loop's overall result, with the `?`
operator propagating the first failure. -/
def runArchives : List (Except ZError Unit) → List Bool × Except ZError Unit
  | [] => ([], .ok ())
  | .ok () :: rest =>
    let r := runArchives rest
    (true :: r.1, r.2)
  | .error e :: rest => (true :: List.replicate rest.length false, .error e)

/-- A decoded date-time (`time::PrimitiveDateTime` fields). -/
structure DosDateTime where
  year : Nat
  mon : Nat
  day : Nat
  hour : Nat
  minute : Nat
  sec : Nat
deriving DecidableEq, Repr

/-- Leap-year rule of the proleptic Gregorian calendar, as used by the
`time` crate (external collaborator). -/
def isLeapYear (y : Nat) : Bool :=
  y % 4 = 0 && (y % 100 ≠ 0 || y % 400 = 0)

/-- Days in a month, as validated by `time::Date::from_calendar_date`. -/
def daysInMonth (y m : Nat) : Nat :=
  if m = 2 then (if isLeapYear y then 29 else 28)
  else if m = 4 ∨ m = 6 ∨ m = 9 ∨ m = 11 then 30
  else 31

/-- Models `dos2time` (src/src/util.rs): decode the DOS date/time fields,
then run the fallible conversions in source order —
`time::Month::try_from` (month 1..=12), `time::Time::from_hms` (hour ≤ 23,
minute ≤ 59, second ≤ 59), `time::Date::from_calendar_date` (year within
the crate's ±9999 range, day within the month).  The `u8`/`i32` casts in the
source cannot fail for 16-bit inputs (each field is at most 62, 63, 31, 31,
15, or 2107 respectively). -/
def dos2time (dos_date dos_time : Nat) : Option DosDateTime :=
  let sec := (dos_time &&& 0x1f) * 2
  let minute := (dos_time >>> 5) &&& 0x3f
  let hour := dos_time >>> 11
  let day := dos_date &&& 0x1f
  let mon := (dos_date >>> 5) &&& 0xf
  let year := (dos_date >>> 9) + 1980
  if 1 ≤ mon ∧ mon ≤ 12 then
    if hour ≤ 23 ∧ minute ≤ 59 ∧ sec ≤ 59 then
      if year ≤ 9999 ∧ 1 ≤ day ∧ day ≤ daysInMonth year mon then
        some ⟨year, mon, day, hour, minute, sec⟩
      else none
    else none
  else none

/-- Spec-side decode, following the claim's words: the six field formulas,
returning the date-time when every field is within its calendar-valid range
and an error (modelled as `none`) otherwise. -/
def dos2timeClaim (dos_date dos_time : Nat) : Option DosDateTime :=
  let fields : DosDateTime :=
    ⟨(dos_date >>> 9) + 1980, (dos_date >>> 5) &&& 0xf, dos_date &&& 0x1f,
     dos_time >>> 11, (dos_time >>> 5) &&& 0x3f, (dos_time &&& 0x1f) * 2⟩
  if 1 ≤ fields.mon ∧ fields.mon ≤ 12 ∧ fields.hour ≤ 23
      ∧ fields.minute ≤ 59 ∧ fields.sec ≤ 59
      ∧ 1 ≤ fields.day ∧ fields.day ≤ daysInMonth fields.year fields.mon then
    some fields
  else none

/-- A hostile buffer: a ZIP64 locator whose absolute offset field (39)
points within the last three bytes of the 42-byte buffer, followed by a
32-bit EOCDR whose `cd_offset` is the ZIP64 sentinel. -/
def c3buf : Buf :=
  [80, 75, 6, 7, 0, 0, 0, 0, 39, 0, 0, 0, 0, 0, 0, 0, 0, 0, 0, 0]
  ++ [80, 75, 5, 6, 0, 0, 0, 0, 0, 0, 0, 0, 0, 0, 0, 0,
      255, 255, 255, 255, 0, 0]

/-- Extra data of a central-directory record in which the ZIP64
extended-information field (id `0x0001`, carrying the 64-bit value 1) is the
SECOND field, after a benign field with id 7 and empty data. -/
def c5extra : Buf :=
  [7, 0, 0, 0] ++ [1, 0, 8, 0, 1, 0, 0, 0, 0, 0, 0, 0]

/-- The state of the `zip64_extbuf` loop cursor after the first field of
`c5extra` has been consumed: the bytes of the id-0x0001 field. -/
def c5rest : Buf := [1, 0, 8, 0, 1, 0, 0, 0, 0, 0, 0, 0]

/-- A central-directory record whose `uncomp_size` is the sentinel
`0xFFFFFFFF` and whose extra data is `c5extra`. -/
def c5buf : Buf :=
  [80, 75, 1, 2]
  ++ [0, 0, 0, 0, 0, 0, 0, 0, 0, 0, 0, 0]
  ++ [0, 0, 0, 0] ++ [0, 0, 0, 0] ++ [255, 255, 255, 255]
  ++ [0, 0] ++ [16, 0] ++ [0, 0] ++ [0, 0] ++ [0, 0]
  ++ [0, 0, 0, 0] ++ [0, 0, 0, 0]
  ++ c5extra

/-- An archive whose ZIP64 EOCDR declares `disk_cd_entries = 5` but
`cd_entries = 7` (a mismatch), behind a 32-bit EOCDR whose own u16 counts
agree and whose `cd_offset` is the ZIP64 sentinel. -/
def c8buf : Buf :=
  [80, 75, 6, 6] ++ [44, 0, 0, 0, 0, 0, 0, 0]
  ++ [0, 0] ++ [0, 0] ++ [0, 0, 0, 0] ++ [0, 0, 0, 0]
  ++ [5, 0, 0, 0, 0, 0, 0, 0] ++ [7, 0, 0, 0, 0, 0, 0, 0]
  ++ [0, 0, 0, 0, 0, 0, 0, 0] ++ [0, 0, 0, 0, 0, 0, 0, 0]
  ++ [80, 75, 6, 7, 0, 0, 0, 0, 0, 0, 0, 0, 0, 0, 0, 0, 0, 0, 0, 0]
  ++ [80, 75, 5, 6, 0, 0, 0, 0, 17, 0, 17, 0, 0, 0, 0, 0,
      255, 255, 255, 255, 0, 0]

/-- The 32-bit EOCDR parsed from `c8buf`. -/
def c8r32 : EocdRecord32 :=
  ⟨0x06054B50, 0, 0, 17, 17, 0, 0xFFFFFFFF, []⟩

/-- The ZIP64 EOCDR parsed from `c8buf`: its 64-bit disk/total entry counts
disagree (5 versus 7). -/
def c8rec : EocdRecord64 :=
  ⟨0x06064B50, 44, 0, 0, 0, 0, 5, 7, 0, 0, []⟩

/-- An archive declaring one central-directory entry whose record bytes do
not carry the `PK\x01\x02` signature. -/
def c9buf : Buf :=
  [1, 2, 3, 4]
  ++ [80, 75, 5, 6, 0, 0, 0, 0, 1, 0, 1, 0, 0, 0, 0, 0, 0, 0, 0, 0, 0, 0]

/-- The iterator state `entries()` yields for `c9buf`. -/
def c9entries : ZipEntries := ⟨c9buf, 1, false⟩

/-- A minimal valid central-directory record: signature plus 42 zero bytes
(all fixed fields zero, empty name/extra/comment). -/
def cfhMin : Buf := [80, 75, 1, 2] ++ List.replicate 42 0

/-- The parsed form of `cfhMin`. -/
def cfhZero : CentralFileHeader :=
  ⟨0, 0, 0, 0, 0, 0, 0, 0, 0, 0, 0, 0, 0, [], [], []⟩

/-- An archive with one valid (all-zero) central-directory record. -/
def buf1 : Buf :=
  cfhMin
  ++ [80, 75, 5, 6, 0, 0, 0, 0, 1, 0, 1, 0, 0, 0, 0, 0, 0, 0, 0, 0, 0, 0]

/-- The 32-bit EOCDR parsed from `buf1`. -/
def buf1r32 : EocdRecord32 := ⟨0x06054B50, 0, 0, 1, 1, 0, 0, []⟩

/-- The archive value parsed from `buf1`. -/
def buf1zip : ZipArchive := ⟨buf1, .zip buf1r32⟩

/-- The iterator state `entries()` yields for `buf1`. -/
def buf1entries : ZipEntries := ⟨buf1, 1, false⟩

/-- An archive with 129 copies of the minimal record and a declared entry
count of 129 — one more than the `cmp::min(len, 128)` capacity hint in
`unzip`. -/
def buf129 : Buf :=
  (List.replicate 129 cfhMin).flatten
  ++ [80, 75, 5, 6, 0, 0, 0, 0, 129, 0, 129, 0, 0, 0, 0, 0, 0, 0, 0, 0, 0, 0]

/-! Helper lemmas. -/

theorem bufLenGo_eq (l : Buf) : ∀ acc, bufLenGo l acc = acc + l.length := by
  induction l with
  | nil => intro acc; simp [bufLenGo]
  | cons x rest ih =>
    intro acc
    match acc with
    | 0 => simp [bufLenGo, ih]; omega
    | a + 1 => simp [bufLenGo, ih]; omega

theorem bufLen_eq (l : Buf) : bufLen l = l.length := by
  simp [bufLen, bufLenGo_eq]

set_option maxRecDepth 10000 in
/-- Anchor for the CRC-32 model: the standard check value of
CRC-32/ISO-HDLC on the ASCII bytes of `123456789`. -/
theorem crc32_check_value :
    crc32 [49, 50, 51, 52, 53, 54, 55, 56, 57] = 0xCBF43926 := by decide

theorem take_ok_of_le (n : Nat) :
    ∀ l : Buf, n ≤ l.length → take l n = .ok (l.drop n, l.take n) := by
  induction n with
  | zero => intro l _; cases l <;> rfl
  | succ k ih =>
    intro l hl
    match l with
    | [] => simp at hl
    | b :: rest =>
      have := ih rest (by simpa using hl)
      simp [take, this]

theorem checkDepth_err_of_abs (cs : List PComponent) :
    ∀ d : Nat, hasAbsolute cs = true → ∃ e, checkDepth d cs = .error e := by
  induction cs with
  | nil => intro d h; simp [hasAbsolute] at h
  | cons c rest ih =>
    intro d h
    cases c with
    | drive s => exact ⟨.mustRelative, rfl⟩
    | rootDir => exact ⟨.mustRelative, rfl⟩
    | curDir =>
      have hr : hasAbsolute rest = true := by
        simpa [hasAbsolute, PComponent.isAbsolute] using h
      exact ih d hr
    | parentDir =>
      have hr : hasAbsolute rest = true := by
        simpa [hasAbsolute, PComponent.isAbsolute] using h
      match d with
      | 0 => exact ⟨.pathLimit, rfl⟩
      | k + 1 => exact ih k hr
    | normal s =>
      have hr : hasAbsolute rest = true := by
        simpa [hasAbsolute, PComponent.isAbsolute] using h
      exact ih (d + 1) hr

theorem checkDepth_spec (cs : List PComponent) :
    ∀ d : Nat, hasAbsolute cs = false →
      (dipsBelowZero (d : Int) cs = true → checkDepth d cs = .error .pathLimit)
      ∧ (dipsBelowZero (d : Int) cs = false → ∃ k, checkDepth d cs = .ok k) := by
  induction cs with
  | nil =>
    intro d _
    constructor
    · intro h; simp [dipsBelowZero] at h
    · intro _; exact ⟨d, rfl⟩
  | cons c rest ih =>
    intro d h
    cases c with
    | drive s => simp [hasAbsolute, PComponent.isAbsolute] at h
    | rootDir => simp [hasAbsolute, PComponent.isAbsolute] at h
    | curDir =>
      have hr : hasAbsolute rest = false := by
        simpa [hasAbsolute, PComponent.isAbsolute] using h
      have hrec := ih d hr
      constructor
      · intro hd; exact hrec.1 (by simpa [dipsBelowZero] using hd)
      · intro hd; exact hrec.2 (by simpa [dipsBelowZero] using hd)
    | normal s =>
      have hr : hasAbsolute rest = false := by
        simpa [hasAbsolute, PComponent.isAbsolute] using h
      have hrec := ih (d + 1) hr
      have hcast : ((d : Int) + 1) = ((d + 1 : Nat) : Int) := by push_cast; ring
      constructor
      · intro hd
        exact hrec.1 (by rw [← hcast]; simpa [dipsBelowZero] using hd)
      · intro hd
        exact hrec.2 (by rw [← hcast]; simpa [dipsBelowZero] using hd)
    | parentDir =>
      have hr : hasAbsolute rest = false := by
        simpa [hasAbsolute, PComponent.isAbsolute] using h
      match d with
      | 0 =>
        constructor
        · intro _; rfl
        · intro hd
          exfalso
          have : dipsBelowZero ((0 : Nat) : Int) (.parentDir :: rest) = true := by
            simp [dipsBelowZero]
          rw [this] at hd
          simp at hd
      | k + 1 =>
        have hrec := ih k hr
        have hcast : (((k + 1 : Nat) : Int) - 1) = ((k : Nat) : Int) := by
          push_cast; ring
        have hstep : dipsBelowZero (((k + 1 : Nat) : Int)) (.parentDir :: rest)
            = dipsBelowZero ((k : Nat) : Int) rest := by
          have hges : ¬ (((k + 1 : Nat) : Int) - 1 < 0) := by push_cast; omega
          simp [dipsBelowZero, hges, hcast]
        constructor
        · intro hd; exact hrec.1 (by rw [← hstep]; exact hd)
        · intro hd; exact hrec.2 (by rw [← hstep]; exact hd)

/-- C1: `path_join` rejects a path holding a root or prefix component with
an error; rejects a non-absolute path whose left-to-right depth walk
(normal segment `+1`, parent segment `-1`) would go below zero with the
path-limit error; accepts every other path, joining it onto the base; and
in particular rejects `"../../../../../../../../.bashrc"` with the
path-limit error, so no file is created outside the root. -/
theorem path_join_matches_spec (base cs : List PComponent) :
    (hasAbsolute cs = true → ∃ e, path_join base cs = .error e)
    ∧ (hasAbsolute cs = false → dipsBelowZero 0 cs = true →
        path_join base cs = .error .pathLimit)
    ∧ (hasAbsolute cs = false → dipsBelowZero 0 cs = false →
        path_join base cs = .ok (base ++ cs))
    ∧ path_join base bashrcName = .error .pathLimit := by
  refine ⟨?_, ?_, ?_, ?_⟩
  · intro h
    obtain ⟨e, he⟩ := checkDepth_err_of_abs cs 0 h
    exact ⟨e, by simp [path_join, he]⟩
  · intro h1 h2
    have hc := (checkDepth_spec cs 0 h1).1 (by simpa using h2)
    simp [path_join, hc]
  · intro h1 h2
    obtain ⟨k, hk⟩ := (checkDepth_spec cs 0 h1).2 (by simpa using h2)
    simp [path_join, hk]
  · have hb : checkDepth 0 bashrcName = .error .pathLimit := rfl
    simp [path_join, hb]

/-- C1 witness: a concrete relative, non-dipping path is joined onto the
base. -/
theorem path_join_matches_spec_witness :
    hasAbsolute [PComponent.normal "a"] = false
    ∧ dipsBelowZero 0 [PComponent.normal "a"] = false
    ∧ path_join [] [PComponent.normal "a"] = .ok [PComponent.normal "a"] :=
  ⟨rfl, rfl, (path_join_matches_spec [] [PComponent.normal "a"]).2.2.1 rfl rfl⟩

/-- C2 (code bug): the permission mode applied to an extracted file is NOT
cleared of the set-uid bit.  For a record whose external attributes carry
unix mode `0o4755` (set-uid root-style binary), the applied mode is `0o4755`
unchanged — bit 11 (set-uid, `0o4000`) survives, because the mask named
`SETUID_AND_SETGID` in the source is `0b11 << 9 = 0o3000`, the set-gid and
sticky bits.  On mode `0o6777` the function clears only the set-gid bit,
returning `0o4777` with set-uid intact. -/
theorem sanitize_setuid_keeps_setuid :
    appliedUnixMode (0o4755 * 65536) = 0o4755
    ∧ Nat.testBit (appliedUnixMode (0o4755 * 65536)) 11 = true
    ∧ sanitize_setuid 0o6777 = 0o4777
    ∧ Nat.testBit (sanitize_setuid 0o6777) 11 = true := by decide

set_option maxRecDepth 10000 in
/-- C3 (code bug): parsing `c3buf` — whose ZIP64 locator offset points
within the last three bytes of the buffer — panics instead of failing
closed: the `filter` closure in `EocdRecord64::find` indexes
`&buf[..EOCDR_SIGNATURE.len()]` on a slice shorter than four bytes. -/
theorem zip64_locator_tail_panic : ZipArchive.parse c3buf = .panicked := by
  decide

set_option maxRecDepth 1000000 in
/-- C4 counterexample: for the 129-entry archive `buf129` the orchestrator
materializes 129 central-directory records — more than
`min(declared count, 128) = 128` — because `cmp::min(len, 128)` only sizes
`Vec::with_capacity` and does not bound the fold. -/
theorem unzip_cap_counterexample :
    128 < unzipMaterializeCount buf129 ∧ unzipMaterializeCount buf129 = 129 := by
  have h : unzipMaterializeCount buf129 = 129 := by decide
  omega

theorem collectGo_length :
    ∀ (fuel : Nat) (s : ZipEntries) (l : List CentralFileHeader),
      fuel = s.count → collectGo fuel s = .ok l → l.length = fuel := by
  intro fuel
  induction fuel with
  | zero =>
    intro s l _ h
    simp [collectGo] at h
    simp [← h]
  | succ k ih =>
    intro s l hc h
    obtain ⟨b, c, z⟩ := s
    simp at hc
    subst hc
    cases hp : CentralFileHeader.parse b z with
    | ok p =>
      obtain ⟨input, cfh⟩ := p
      rw [collectGo] at h
      simp [ZipEntries.next, hp] at h
      cases hc2 : collectGo k ⟨input, k, z⟩ with
      | ok l2 =>
        rw [hc2] at h
        simp [PResult.map] at h
        have := ih ⟨input, k, z⟩ l2 rfl hc2
        simp [← h, this]
      | err e => rw [hc2] at h; simp [PResult.map] at h
      | panicked => rw [hc2] at h; simp [PResult.map] at h
      | diverges => rw [hc2] at h; simp [PResult.map] at h
    | err e =>
      rw [collectGo] at h
      simp [ZipEntries.next, hp] at h
    | panicked =>
      rw [collectGo] at h
      simp [ZipEntries.next, hp] at h
    | diverges =>
      rw [collectGo] at h
      simp [ZipEntries.next, hp] at h

/-- C4 amended: `unzip` materializes every record the iterator yields — on
success exactly the parsed entry count, with no 128-record cap — and all
materialized entries are handed to extraction. -/
theorem unzip_materializes_all_entries :
    ∀ (buf : Buf) (z : ZipArchive) (es : ZipEntries)
      (l : List CentralFileHeader),
      ZipArchive.parse buf = .ok z → z.entries = .ok es →
      unzipMaterialize buf = .ok l → l.length = es.count := by
  intro buf z es l hp he hm
  rw [unzipMaterialize, hp] at hm
  dsimp only at hm
  cases hce : z.eocdr.cd_entries with
  | none => rw [hce] at hm; simp at hm
  | some n =>
    rw [hce] at hm
    simp [he] at hm
    exact collectGo_length es.count es l rfl hm

/-- C4 witness: the one-entry archive `buf1` materializes exactly its
declared single record. -/
theorem unzip_materializes_all_entries_witness :
    List.length [cfhZero] = buf1entries.count :=
  unzip_materializes_all_entries buf1 buf1zip buf1entries [cfhZero]
    (by decide) (by decide) (by decide)

theorem zip64LoopRun_selfloop (extra i : Buf)
    (h : zip64Step extra i = .again i) :
    ∀ n, zip64LoopRun extra n i = .diverges := by
  intro n
  induction n with
  | zero => rfl
  | succ k ih => rw [zip64LoopRun, h]; exact ih

/-- C5 (code bug): when the ZIP64 extended-information field (id `0x0001`)
is not the first field of a record's extra data, the `zip64_extbuf` loop in
`CentralFileHeader::parse` never terminates: the loop body reads
`ExtensibleDataField::read(extra)` — the start of the extra data — instead
of the advancing cursor, so it re-reads the first field forever.  On the
concrete record `c5buf` (sentinel `uncomp_size`, extra = benign field then
the id-0x0001 field) the parse diverges for every amount of fuel, instead
of drawing the 64-bit override from the id-0x0001 field. -/
theorem zip64_override_second_field_diverges :
    CentralFileHeader.parse c5buf true = .diverges
    ∧ ∀ fuel, zip64LoopRun c5extra fuel c5extra = .diverges := by
  constructor
  · decide
  · intro fuel
    match fuel with
    | 0 => rfl
    | n + 1 =>
      have h1 : zip64Step c5extra c5extra = .again c5rest := by decide
      rw [zip64LoopRun, h1]
      exact zip64LoopRun_selfloop c5extra c5rest (by decide) n

theorem copyLoopF_spec (c expect : Nat) :
    ∀ (fuel : Nat) (rem : Buf) (s : Nat) (out : Buf), rem.length < fuel →
      copyLoopF c expect fuel s rem out =
        (if crcFinal (crcUpdate s rem) = expect then .ok (out ++ rem)
         else .crc32CheckFailed expect (crcFinal (crcUpdate s rem))) := by
  intro fuel
  induction fuel with
  | zero => intro rem s out h; omega
  | succ k ih =>
    intro rem s out h
    match rem with
    | [] => simp [copyLoopF, crcUpdate]
    | b :: rest =>
      have hlen : ((b :: rest).drop (c + 1)).length < k := by
        simp only [List.length_drop, List.length_cons] at h ⊢
        omega
      rw [copyLoopF, ih _ _ _ hlen]
      have hsplit : (b :: rest).take (c + 1) ++ (b :: rest).drop (c + 1)
          = b :: rest := List.take_append_drop _ _
      have hupd : crcUpdate (crcUpdate s ((b :: rest).take (c + 1)))
          ((b :: rest).drop (c + 1)) = crcUpdate s (b :: rest) := by
        rw [crcUpdate, crcUpdate, crcUpdate, ← List.foldl_append, hsplit]
      rw [hupd, List.append_assoc, hsplit]

/-- C6: for every decoded stream, the extraction pipeline of `do_file`
writes exactly the first `uncomp_size` bytes of the stream (whatever the
decoder would emit beyond them), computes the streaming CRC-32 over exactly
those bytes, and fails with the `crc32 check failed` error precisely when
that checksum differs from the record's expected `crc32`. -/
theorem do_file_truncates_and_checks_crc32
    (decoded : Buf) (uncomp_size crc_expect c : Nat) :
    doFilePipeline decoded uncomp_size crc_expect c =
      (if crc32 (decoded.take uncomp_size) = crc_expect
       then .ok (decoded.take uncomp_size)
       else .crc32CheckFailed crc_expect (crc32 (decoded.take uncomp_size))) := by
  have h := copyLoopF_spec c crc_expect ((decoded.take uncomp_size).length + 1)
    (decoded.take uncomp_size) 0xFFFFFFFF [] (by omega)
  simpa [doFilePipeline, ioCopyCrc, crc32] using h

/-- C7 counterexample: with two archive arguments where the first fails,
the loop of `main` never attempts the second archive — the attempted flags
are `[true, false]` — because `unzip(...)?` propagates the failure out of
the loop. -/
theorem archive_loop_counterexample :
    runArchives [.error .badEocdr, .ok ()]
      = ([true, false], .error .badEocdr) := rfl

/-- C7 amended: archives are processed sequentially and the first failure
aborts the invocation: all archives before the first failing one are
attempted, the failing one is attempted, and every later archive argument
is not attempted. -/
theorem archive_loop_stops_at_first_error :
    ∀ (e : ZError) (post pre : List (Except ZError Unit)),
      (∀ r ∈ pre, r = .ok ()) →
      runArchives (pre ++ .error e :: post)
        = (List.replicate (pre.length + 1) true
            ++ List.replicate post.length false, .error e) := by
  intro e post pre
  induction pre with
  | nil =>
    intro _
    simp [runArchives, List.replicate]
  | cons r rest ih =>
    intro h
    have hr : r = .ok () := h r (by simp)
    subst hr
    have hrest := ih (fun x hx => h x (by simp [hx]))
    simp [runArchives, hrest, List.replicate_succ]

/-- C7 witness: a concrete invocation with a succeeding first archive, a
failing second archive, and a third archive that is consequently never
attempted. -/
theorem archive_loop_stops_at_first_error_witness :
    runArchives [.ok (), .error .eof, .ok ()]
      = ([true, true, false], .error .eof) := by
  have h := archive_loop_stops_at_first_error .eof [.ok ()] [.ok ()]
    (by simp)
  simpa using h

set_option maxRecDepth 10000 in
/-- C8 counterexample: the archive `c8buf`, whose ZIP64 EOCDR declares
`disk_cd_entries = 5` but `cd_entries = 7`, is ACCEPTED by
`ZipArchive::parse` — no `Unsupported` failure occurs — contradicting the
claim that the disk/entry-count agreement is re-validated on the ZIP64
record's own 64-bit fields. -/
theorem zip64_count_mismatch_accepted :
    ZipArchive.parse c8buf = .ok ⟨c8buf, .zip64 c8rec⟩
    ∧ c8rec.disk_cd_entries ≠ c8rec.cd_entries := by
  refine ⟨by decide, by decide⟩

/-- C8 amended: no disk/entry-count re-validation happens for the ZIP64
record.  Once the 32-bit EOCDR's own u16 counts agree and its `cd_offset`
carries the sentinel, a successfully parsed ZIP64 EOCDR is accepted
unconditionally — with no hypothesis on its 64-bit `disk_cd_entries` and
`cd_entries` fields. -/
theorem parse_skips_zip64_count_check :
    ∀ (buf : Buf) (r : EocdRecord32) (off : Nat) (e : EocdRecord64),
      EocdRecord32.find buf = .ok (r, off) →
      r.disk_cd_entries = r.cd_entries →
      r.cd_offset = 0xFFFFFFFF →
      EocdRecord64.find buf off = .ok e →
      ZipArchive.parse buf = .ok ⟨buf, .zip64 e⟩ := by
  intro buf r off e h1 h2 h3 h4
  rw [ZipArchive.parse, h1]
  dsimp only
  simp [h2, h3, h4, PResult.map]

set_option maxRecDepth 10000 in
/-- C8 witness: the amended theorem applied to the concrete mismatched
archive `c8buf`. -/
theorem parse_skips_zip64_count_check_witness :
    ZipArchive.parse c8buf = .ok ⟨c8buf, .zip64 c8rec⟩ :=
  parse_skips_zip64_count_check c8buf c8r32 76 c8rec (by decide) (by decide)
    (by decide) (by decide)

/-- C9 counterexample: the archive `c9buf` declares one central-directory
entry, yet its enumeration yields two items (both the same `BadCfh` error):
a per-record parse failure leaves the iterator state unchanged, so the
sequence is not bounded by the parsed entry count and does not terminate
after an error. -/
theorem entries_unbounded_error_items :
    (ZipArchive.parse c9buf).bind
        (fun z => (z.entries).map fun es => (es.count, es.takeItems 2))
      = .ok (1, [.err .badCfh, .err .badCfh]) ∧ 1 < 2 := by
  refine ⟨by decide, by omega⟩

theorem countOks_le (n : Nat) :
    ∀ s : ZipEntries, countOks (s.takeItems n) ≤ s.count := by
  induction n with
  | zero =>
    intro s
    simp [ZipEntries.takeItems, countOks]
  | succ k ih =>
    intro s
    obtain ⟨b, c, z⟩ := s
    match c with
    | 0 => simp [ZipEntries.takeItems, ZipEntries.next, countOks]
    | m + 1 =>
      rw [ZipEntries.takeItems]
      cases hp : CentralFileHeader.parse b z with
      | ok p =>
        obtain ⟨input, cfh⟩ := p
        simp only [ZipEntries.next, hp]
        have := ih ⟨input, m, z⟩
        simp [countOks, List.filter] at this ⊢
        omega
      | err e =>
        simp only [ZipEntries.next, hp]
        have := ih ⟨b, m + 1, z⟩
        simp [countOks, List.filter] at this ⊢
        omega
      | panicked =>
        simp only [ZipEntries.next, hp]
        have := ih ⟨b, m + 1, z⟩
        simp [countOks, List.filter] at this ⊢
        omega
      | diverges =>
        simp only [ZipEntries.next, hp]
        have := ih ⟨b, m + 1, z⟩
        simp [countOks, List.filter] at this ⊢
        omega

/-- C9 amended: the enumeration terminates (yields `none`) only when the
remaining count is zero; at most `cd_entries` of the yielded items are
successful records; each step re-checks the `PK\x01\x02` signature and
yields `BadCfh` when it is absent; but a per-record error leaves the
iterator state unchanged, so after an error the same error is yielded on
every subsequent call and the sequence never reaches `none`. -/
theorem entries_bounded_successes :
    ∀ s : ZipEntries,
      (s.count = 0 → s.next = none)
      ∧ (∀ e s2, s.next = some (.err e, s2) → s2 = s)
      ∧ (∀ n, countOks (s.takeItems n) ≤ s.count)
      ∧ (0 < s.count → 4 ≤ s.buf.length → s.buf.take 4 ≠ cfhSigBytes →
          s.next = some (.err .badCfh, s)) := by
  intro s
  refine ⟨?_, ?_, ?_, ?_⟩
  · intro h
    obtain ⟨b, c, z⟩ := s
    simp at h
    subst h
    rfl
  · intro e s2 h
    obtain ⟨b, c, z⟩ := s
    match c with
    | 0 => simp [ZipEntries.next] at h
    | m + 1 =>
      cases hp : CentralFileHeader.parse b z with
      | ok p => rw [ZipEntries.next] at h; simp [hp] at h
      | err e2 =>
        rw [ZipEntries.next] at h
        simp [hp] at h
        exact h.2.symm
      | panicked => rw [ZipEntries.next] at h; simp [hp] at h
      | diverges => rw [ZipEntries.next] at h; simp [hp] at h
  · intro n
    exact countOks_le n s
  · intro h1 h2 h3
    obtain ⟨b, c, z⟩ := s
    match c with
    | 0 => simp at h1
    | m + 1 =>
      have ht := take_ok_of_le 4 b h2
      simp [ZipEntries.next, CentralFileHeader.parse, ht, h3]

/-- C9 witness: on the concrete one-entry archive state `c9entries`, whose
buffer lacks the record signature, `next` yields the `BadCfh` error with
the state unchanged. -/
theorem entries_bounded_successes_witness :
    c9entries.next = some (.err .badCfh, c9entries) :=
  (entries_bounded_successes c9entries).2.2.2 (by decide) (by decide)
    (by decide)

/-- C10: for all 16-bit inputs, `dos2time` decodes the six fields by the
claimed formulas and errors exactly when a decoded field falls outside its
calendar-valid range (month 1..=12, hour ≤ 23, minute ≤ 59, second ≤ 59,
day 1..=days-in-month with leap years); the `time` crate's ±9999 year-range
check can never fire for 16-bit dates, whose years span 1980..=2107. -/
theorem dos2time_matches_claim :
    ∀ (dos_date dos_time : Nat), dos_date < 2 ^ 16 → dos_time < 2 ^ 16 →
      dos2time dos_date dos_time = dos2timeClaim dos_date dos_time := by
  intro d t hd ht
  have hy : d >>> 9 = d / 512 := by simp [Nat.shiftRight_eq_div_pow]
  have hyr : (d >>> 9) + 1980 ≤ 9999 := by rw [hy]; omega
  simp only [dos2time, dos2timeClaim]
  split_ifs <;> first | rfl | omega

/-- C10 witness: the DOS date/time pair encoding 2024-02-29 10:30:50 (a
leap-year day) decodes to exactly that date-time. -/
theorem dos2time_matches_claim_witness :
    22621 < 2 ^ 16 ∧ 21465 < 2 ^ 16
    ∧ dos2time 22621 21465 = dos2timeClaim 22621 21465
    ∧ dos2time 22621 21465 = some ⟨2024, 2, 29, 10, 30, 50⟩ :=
  ⟨by decide, by decide,
   dos2time_matches_claim 22621 21465 (by decide) (by decide), by decide⟩
